import Mathlib

/-!  Shallow embedding of the core of ProjectSync's `sync_tool.py`: the
persisted project store (`Config.load`), untracked-file listing
(`_get_gitignored_files`), timestamp resolution (`_get_file_mtime`), conflict
detection (`_detect_conflicts`), the conflict-resolution dialog
(`ConflictDialog._resolve` / `_cancel`), the two sync operations
(`_sync_to_remote`, `_sync_from_remote`), git push (`_git_push`) and the
four-step full-sync pipeline (`_full_sync`).

External command invocations are modeled by their observable results: a pair
of the success flag and the raw combined output, exactly what
`SyncApp._run_command` captures (that helper strips its output, and several
call sites strip again; stripping is idempotent, so each use site below
applies `pyStrip` once).  Timestamps are modeled at millisecond granularity;
the code formats them with `strftime` to whole-second precision before
comparing, which the model renders as division by 1000 (the formatted string
is injective per whole second). -/

/-- Python's `Char`-level whitespace test used by `str.strip`. -/
def pyIsWs (c : Char) : Bool :=
  (c == ' ') || (c == '\t') || (c == '\n') || (c == '\r')

/-- Python `str.strip()`: drop whitespace from both ends.  Written over the
character list so that it evaluates by kernel reduction. -/
def pyStrip (s : String) : String :=
  String.mk (((s.data.dropWhile pyIsWs).reverse.dropWhile pyIsWs).reverse)

/-- Helper for `pySplitLines`: the accumulated current chunk is kept reversed. -/
def pySplitLinesGo : List Char → List Char → List String
  | [], cur => [String.mk cur.reverse]
  | c :: rest, cur =>
    if c == '\n' then String.mk cur.reverse :: pySplitLinesGo rest []
    else pySplitLinesGo rest (c :: cur)

/-- Python `str.split('\n')`: splits on every newline, keeping empty chunks. -/
def pySplitLines (s : String) : List String :=
  pySplitLinesGo s.data []

/-- Python `s.isdigit()` followed by `int(s)`: `some` exactly when `s` is a
nonempty all-digit string. -/
def pyToNat (s : String) : Option Nat :=
  if !s.data.isEmpty && s.data.all Char.isDigit then
    some (s.data.foldl (fun n c => n * 10 + (c.toNat - 48)) 0)
  else none

/-- A stored project record (the dict built by `ProjectDialog._save`). -/
structure Project where
  name : String
  local_path : String
  remote_host : String
  remote_path : String
  git_branch : String
deriving DecidableEq

/-- What reading and JSON-parsing the store file can observably produce for
`Config.load`: the file is missing; opening or reading raises `IOError`;
decoding the bytes raises `UnicodeDecodeError`; `json.load` raises
`JSONDecodeError` on decodable but unparseable text; the parse succeeded but
produced a non-dict value (a JSON list, number, string or null), on which
`data.get` raises `AttributeError`; or a dict was parsed, whose `projects`
key is present (`some`) or absent (`none`). -/
inductive StoreFile where
  | missing
  | ioError
  | undecodable
  | unparseable (raw : String)
  | parsedNonDict
  | parsed (projects : Option (List Project))
deriving DecidableEq

/-- The exceptions `Config.load` lets escape: its `except` clause names only
`json.JSONDecodeError` and `IOError`, so `UnicodeDecodeError` (raised while
decoding byte-corrupted content, a `ValueError` that is not a
`JSONDecodeError`) and `AttributeError` (raised by `data.get` when the parsed
value is not a dict) propagate to the caller. -/
inductive LoadError where
  | unicodeDecodeError
  | attributeError
deriving DecidableEq

/-- `Config.load`: a missing file, an `IOError`, and text `json.load` cannot
parse all fall back to the empty project list; a parsed dict yields
`data.get('projects', [])`; undecodable bytes and parseable non-dict content
raise uncaught (`Except.error`). -/
def config_load : StoreFile → Except LoadError (List Project)
  | .missing => .ok []
  | .ioError => .ok []
  | .undecodable => .error .unicodeDecodeError
  | .unparseable _ => .ok []
  | .parsedNonDict => .error .attributeError
  | .parsed none => .ok []
  | .parsed (some ps) => .ok ps

/-- Per-file decision in the conflict dialog: the `Use Local` / `Use Remote` /
`Skip` buttons (`'local'`, `'remote'`, `'skip'` in the code). -/
inductive Choice where
  | useLocal
  | useRemote
  | skip
deriving DecidableEq

/-- One conflict record as `_detect_conflicts` builds it; the timestamps are
the whole-second formatted values (see the header note). -/
structure Conflict where
  file : String
  local_time : Nat
  remote_time : Nat
deriving DecidableEq

/-- The observable results of the external commands one sync run performs.
`localList` / `remoteList` are the (success, raw output) of the two
`git ls-files --others --ignored --exclude-standard` invocations;
`localMtimeMs` is the local filesystem stat (`none` when `os.path.exists`
fails), in milliseconds; `remoteStat` is the (success, raw output) of the
remote `stat` command (with its flag fallback, a single shell invocation). -/
structure SyncEnv where
  localList : Bool × String
  remoteList : Bool × String
  localMtimeMs : String → Option Nat
  remoteStat : String → Bool × String

/-- `_get_gitignored_files`: on success with non-empty (stripped) output the
stripped output split on newlines, otherwise the empty list. -/
def get_gitignored_files (res : Bool × String) : List String :=
  if res.1 && (pyStrip res.2 != "") then pySplitLines (pyStrip res.2) else []

def localFiles (env : SyncEnv) : List String :=
  get_gitignored_files env.localList

def remoteFiles (env : SyncEnv) : List String :=
  get_gitignored_files env.remoteList

/-- `_get_file_mtime`: locally, the stat value formatted to whole seconds when
the file exists; remotely, the stat command's output parsed when the command
succeeded and the stripped output is all digits.  `none` otherwise. -/
def get_file_mtime (env : SyncEnv) (f : String) (isLocal : Bool) : Option Nat :=
  if isLocal then
    (env.localMtimeMs f).map (fun ms => ms / 1000)
  else
    let r := env.remoteStat f
    if r.1 then pyToNat (pyStrip r.2) else none

/-- `_detect_conflicts`: intersect the two untracked-file sets (python `set`,
modeled by `dedup` plus a membership filter), and emit a conflict exactly for
the common files whose two timestamps both resolve and differ. -/
def detect_conflicts (env : SyncEnv) : List Conflict :=
  let common := (localFiles env).dedup.filter (fun f => decide (f ∈ remoteFiles env))
  common.filterMap (fun f =>
    match get_file_mtime env f true, get_file_mtime env f false with
    | some lt, some rt => if lt ≠ rt then some ⟨f, lt, rt⟩ else none
    | _, _ => none)

/-- One user interaction with the conflict dialog: pressing a decision button
(`_resolve`, with the current state of the `apply to all remaining`
checkbox), or `Cancel All` (`_cancel`). -/
inductive UserAction where
  | resolve (choice : Choice) (applyAll : Bool)
  | cancel
deriving DecidableEq

/-- The dialog object when `wait_window` returns: `self.results` (a python
dict, modeled as an insertion-ordered association list) and `self.cancelled`. -/
structure DialogState where
  results : List (String × Choice)
  cancelled : Bool
deriving DecidableEq

/-- Python dict assignment `m[k] = v`: an existing key keeps its position and
gets the new value, a new key is appended. -/
def dictInsert (m : List (String × Choice)) (k : String) (v : Choice) : List (String × Choice) :=
  if k ∈ m.map Prod.fst then m.map (fun p => if p.1 = k then (k, v) else p)
  else m ++ [(k, v)]

/-- One run of `ConflictDialog` over the conflict list, consuming one user
action per presented conflict.  Recording a decision with `apply to all
remaining` set propagates the same choice to every later conflict and closes
the dialog; otherwise the index advances, and past the last conflict the
dialog closes resolved.  `Cancel All` closes it with `cancelled` set.
`none` models the modal never closing (the user never acts). -/
def conflict_dialog_run :
    List Conflict → List UserAction → List (String × Choice) → Option DialogState
  | [], _, acc => some ⟨acc, false⟩
  | _ :: _, [], _ => none
  | c :: rest, a :: as, acc =>
    match a with
    | .cancel => some ⟨acc, true⟩
    | .resolve ch applyAll =>
      let acc2 := dictInsert acc c.file ch
      if applyAll then
        some ⟨rest.foldl (fun m cf => dictInsert m cf.file ch) acc2, false⟩
      else conflict_dialog_run rest as acc2

/-- `_sync_to_remote`'s exclusion list: every file whose decision is not
`'local'`. -/
def exclude_to_remote (results : List (String × Choice)) : List String :=
  (results.filter (fun p => p.2 != Choice.useLocal)).map Prod.fst

/-- `_sync_from_remote`'s exclusion list: every file whose decision is not
`'remote'`. -/
def exclude_from_remote (results : List (String × Choice)) : List String :=
  (results.filter (fun p => p.2 != Choice.useRemote)).map Prod.fst

/-- `files = [f for f in files if f not in exclude_files]`. -/
def filter_files (files exclude : List String) : List String :=
  files.filter (fun f => decide (f ∉ exclude))

/-- The distinct outcomes a sync operation reports (status line plus return
value): `cancelled` ("Sync cancelled", returns False), `nothingToDo`
("No untracked files to sync", returns True), `synced n` ("Synced n files",
returns True), `syncFailed` ("Sync failed" plus an error dialog, returns
False). -/
inductive SyncOutcome where
  | cancelled
  | nothingToDo
  | synced (n : Nat)
  | syncFailed
deriving DecidableEq

/-- The boolean the sync operation returns for each outcome. -/
def syncOutcomeToBool : SyncOutcome → Bool
  | .cancelled => false
  | .nothingToDo => true
  | .synced _ => true
  | .syncFailed => false

/-- One completed sync operation: its outcome, and the exact file list handed
to the rsync invocation (`none` when rsync was never invoked). -/
structure SyncRun where
  outcome : SyncOutcome
  transferred : Option (List String)
deriving DecidableEq

/-- Everything one sync operation observes: the command environment, the
user's dialog actions, and whether the rsync invocation succeeds. -/
structure SyncOpEnv where
  env : SyncEnv
  acts : List UserAction
  rsyncOk : Bool

/-- The tail of `_sync_to_remote` after the exclusion list is settled: list
the local untracked files, remove the excluded ones, succeed immediately when
nothing remains, otherwise invoke rsync with exactly that list. -/
def sync_to_remote_after (e : SyncOpEnv) (excludeFiles : List String) : SyncRun :=
  let files := filter_files (localFiles e.env) excludeFiles
  if files.isEmpty then ⟨.nothingToDo, none⟩
  else if e.rsyncOk then ⟨.synced files.length, some files⟩
  else ⟨.syncFailed, some files⟩

/-- `_sync_to_remote`: optionally detect conflicts and run the dialog; a
cancelled dialog aborts the sync before any transfer; otherwise the exclusion
list is derived from the decisions (empty when there was no conflict or
`resolve_conflicts` is off). -/
def sync_to_remote (e : SyncOpEnv) (resolveConflicts : Bool) : Option SyncRun :=
  if resolveConflicts then
    let conflicts := detect_conflicts e.env
    if conflicts.isEmpty then some (sync_to_remote_after e [])
    else
      match conflict_dialog_run conflicts e.acts [] with
      | none => none
      | some st =>
        if st.cancelled then some ⟨.cancelled, none⟩
        else some (sync_to_remote_after e (exclude_to_remote st.results))
  else some (sync_to_remote_after e [])

/-- The tail of `_sync_from_remote`: same as `sync_to_remote_after` with the
remote untracked-file list as the authoritative side. -/
def sync_from_remote_after (e : SyncOpEnv) (excludeFiles : List String) : SyncRun :=
  let files := filter_files (remoteFiles e.env) excludeFiles
  if files.isEmpty then ⟨.nothingToDo, none⟩
  else if e.rsyncOk then ⟨.synced files.length, some files⟩
  else ⟨.syncFailed, some files⟩

/-- `_sync_from_remote`: symmetric to `sync_to_remote`, excluding every file
whose decision is not `'remote'`. -/
def sync_from_remote (e : SyncOpEnv) (resolveConflicts : Bool) : Option SyncRun :=
  if resolveConflicts then
    let conflicts := detect_conflicts e.env
    if conflicts.isEmpty then some (sync_from_remote_after e [])
    else
      match conflict_dialog_run conflicts e.acts [] with
      | none => none
      | some st =>
        if st.cancelled then some ⟨.cancelled, none⟩
        else some (sync_from_remote_after e (exclude_from_remote st.results))
  else some (sync_from_remote_after e [])

/-- What one `_git_push` run observes: the result of `git status --porcelain`,
the commit-message dialog's result (`none` = cancel), and the results of the
`git add -A && git commit` invocation and of `git push origin <branch>`. -/
structure GitPushEnv where
  gitStatus : Bool × String
  commitMsg : Option String
  commitOk : Bool
  pushOk : Bool

/-- `_get_git_status`: a failing status query reports clean with an error
summary; otherwise dirtiness is non-emptiness of the stripped output. -/
def get_git_status (e : GitPushEnv) : Bool × String :=
  if e.gitStatus.1 then (pyStrip e.gitStatus.2 != "", pyStrip e.gitStatus.2)
  else (false, "Error checking git status")

/-- The distinct ways `_git_push` ends: cancelled at the commit dialog,
commit failed, push failed, or pushed. -/
inductive PushResult where
  | pushCancelled
  | commitFailed
  | pushFailed
  | pushed
deriving DecidableEq

/-- The boolean `_git_push` returns for each ending. -/
def pushResultToBool : PushResult → Bool
  | .pushed => true
  | _ => false

/-- One completed `_git_push` run: how it ended, whether the single
stage-and-commit command ran, and whether the push command ran. -/
structure GitPushRun where
  result : PushResult
  commitInvoked : Bool
  pushInvoked : Bool
deriving DecidableEq

/-- `_git_push`: on a dirty tree, no commit message aborts before any
command; with a message, the combined `git add -A && git commit` runs and its
failure aborts before the push; only then is the branch pushed. -/
def git_push (e : GitPushEnv) : GitPushRun :=
  if (get_git_status e).1 then
    match e.commitMsg with
    | none => ⟨.pushCancelled, false, false⟩
    | some _ =>
      if e.commitOk then
        if e.pushOk then ⟨.pushed, true, true⟩ else ⟨.pushFailed, true, true⟩
      else ⟨.commitFailed, true, false⟩
  else
    if e.pushOk then ⟨.pushed, false, true⟩ else ⟨.pushFailed, false, true⟩

/-- The four steps of `_full_sync`, in pipeline order. -/
inductive Step where
  | syncToRemote
  | gitPush
  | gitPull
  | syncFromRemote
deriving DecidableEq

def fullSteps : List Step := [.syncToRemote, .gitPush, .gitPull, .syncFromRemote]

/-- The boolean each step of one `_full_sync` run would report if invoked. -/
structure FullSyncEnv where
  syncToResult : Bool
  pushResult : Bool
  pullResult : Bool
  syncFromResult : Bool
deriving DecidableEq

def stepResult (e : FullSyncEnv) : Step → Bool
  | .syncToRemote => e.syncToResult
  | .gitPush => e.pushResult
  | .gitPull => e.pullResult
  | .syncFromRemote => e.syncFromResult

/-- The loop body of `_full_sync`: run the steps in order, stopping at the
first one that reports non-success.  Returns the invoked steps and whether
the pipeline completed. -/
def runSteps (e : FullSyncEnv) : List Step → List Step × Bool
  | [] => ([], true)
  | s :: rest =>
    if stepResult e s then
      let r := runSteps e rest
      (s :: r.1, r.2)
    else ([s], false)

/-- `_full_sync`: the fixed four-step pipeline. -/
def full_sync (e : FullSyncEnv) : List Step × Bool :=
  runSteps e fullSteps

/-!  ## Supporting lemmas -/

/-- Membership in the detected conflict list, characterized file by file. -/
theorem mem_detect_conflicts_iff (env : SyncEnv) (c : Conflict) :
    c ∈ detect_conflicts env ↔
      c.file ∈ localFiles env ∧ c.file ∈ remoteFiles env ∧
      get_file_mtime env c.file true = some c.local_time ∧
      get_file_mtime env c.file false = some c.remote_time ∧
      c.local_time ≠ c.remote_time := by
  unfold detect_conflicts
  simp only [List.mem_filterMap, List.mem_filter, List.mem_dedup, decide_eq_true_eq]
  constructor
  · rintro ⟨f, ⟨hfl, hfr⟩, hg⟩
    rcases hL : get_file_mtime env f true with _ | lt
    · rw [hL] at hg
      simp at hg
    rcases hR : get_file_mtime env f false with _ | rt
    · rw [hL, hR] at hg
      simp at hg
    rw [hL, hR] at hg
    simp only [] at hg
    by_cases hne : lt = rt
    · simp [hne] at hg
    · rw [if_pos hne] at hg
      cases hg
      exact ⟨hfl, hfr, hL, hR, hne⟩
  · rintro ⟨h1, h2, h3, h4, h5⟩
    refine ⟨c.file, ⟨h1, h2⟩, ?_⟩
    rw [h3, h4]
    simp only [if_pos h5]

/-- The files of the detected conflicts are pairwise distinct: the conflicts
come from a set intersection, and each record carries the file it was built
from.  This justifies treating the dialog's dict as an append-only list while
its keys are conflict files. -/
theorem detect_conflicts_files_nodup (env : SyncEnv) :
    ((detect_conflicts env).map (fun c => c.file)).Nodup := by
  have hsub : ∀ (g : String → Option Conflict), (∀ f c, g f = some c → c.file = f) →
      ∀ l : List String, ((l.filterMap g).map (fun c => c.file)).Sublist l := by
    intro g hg l
    induction l with
    | nil => simp
    | cons a l ih =>
      rw [List.filterMap_cons]
      cases hga : g a with
      | none => exact ih.cons a
      | some c =>
        rw [List.map_cons, hg a c hga]
        exact ih.cons₂ a
  unfold detect_conflicts
  refine List.Nodup.sublist (hsub _ ?_ _) (List.Nodup.filter _ (List.nodup_dedup _))
  intro f c h
  rcases hL : get_file_mtime env f true with _ | lt
  · rw [hL] at h
    simp at h
  rcases hR : get_file_mtime env f false with _ | rt
  · rw [hL, hR] at h
    simp at h
  rw [hL, hR] at h
  simp only [] at h
  by_cases hne : lt = rt
  · simp [hne] at h
  · rw [if_pos hne] at h
    cases h
    rfl

/-!  ## The claims -/

/-- Claim C1: for every environment, a file is the subject of an emitted
`Conflict` iff it lies in both untracked-file sets, both of its timestamps
resolve, and the whole-second formatted values are unequal; consequently,
when every common file carries identical resolved timestamps the detector
returns the empty conflict list. -/
theorem detect_conflicts_characterization (env : SyncEnv) :
    (∀ f : String,
      (∃ c ∈ detect_conflicts env, c.file = f) ↔
        (f ∈ localFiles env ∧ f ∈ remoteFiles env ∧
          ∃ lt rt, get_file_mtime env f true = some lt ∧
            get_file_mtime env f false = some rt ∧ lt ≠ rt))
    ∧ ((∀ f, f ∈ localFiles env → f ∈ remoteFiles env →
          ∃ t, get_file_mtime env f true = some t ∧ get_file_mtime env f false = some t) →
        detect_conflicts env = []) := by
  constructor
  · intro f
    constructor
    · rintro ⟨c, hc, rfl⟩
      obtain ⟨h1, h2, h3, h4, h5⟩ := (mem_detect_conflicts_iff env c).mp hc
      exact ⟨h1, h2, c.local_time, c.remote_time, h3, h4, h5⟩
    · rintro ⟨h1, h2, lt, rt, h3, h4, h5⟩
      exact ⟨⟨f, lt, rt⟩, (mem_detect_conflicts_iff env ⟨f, lt, rt⟩).mpr ⟨h1, h2, h3, h4, h5⟩, rfl⟩
  · intro hall
    rw [List.eq_nil_iff_forall_not_mem]
    intro c hc
    obtain ⟨h1, h2, h3, h4, h5⟩ := (mem_detect_conflicts_iff env c).mp hc
    obtain ⟨t, ht1, ht2⟩ := hall c.file h1 h2
    rw [h3] at ht1
    rw [h4] at ht2
    exact h5 ((Option.some.inj ht1).trans (Option.some.inj ht2).symm)

/-- Claim C6: a candidate file whose timestamp is unresolvable on either side
(local file missing or unreadable, remote stat failing, or remote stat output
not all digits) never appears in the detected conflict list; the detector
returns normally, surfacing no error for it. -/
theorem unresolvable_mtime_soft_failure (env : SyncEnv) (f : String)
    (h : env.localMtimeMs f = none ∨ (env.remoteStat f).1 = false ∨
      pyToNat (pyStrip (env.remoteStat f).2) = none) :
    ∀ c ∈ detect_conflicts env, c.file ≠ f := by
  intro c hc hcf
  obtain ⟨h1, h2, h3, h4, h5⟩ := (mem_detect_conflicts_iff env c).mp hc
  rw [hcf] at h3 h4
  rcases h with h | h | h
  · simp [get_file_mtime, h] at h3
  · simp [get_file_mtime, h] at h4
  · simp [get_file_mtime, h] at h4

/-- Concrete environment for the C6 witness: the common file has no local
timestamp. -/
def envC6 : SyncEnv where
  localList := (true, "a")
  remoteList := (true, "a")
  localMtimeMs := fun _ => none
  remoteStat := fun _ => (true, "2")

theorem unresolvable_mtime_soft_failure_witness :
    (envC6.localMtimeMs "a" = none ∨ (envC6.remoteStat "a").1 = false ∨
      pyToNat (pyStrip (envC6.remoteStat "a").2) = none)
    ∧ (∀ c ∈ detect_conflicts envC6, c.file ≠ "a") :=
  ⟨Or.inl rfl, unresolvable_mtime_soft_failure envC6 "a" (Or.inl rfl)⟩

/-- Claim C9, counterexample: a store file with byte-corrupted (undecodable)
content — corrupted text in the claim's sense — does not load as the empty
project list; `Config.load` raises an uncaught `UnicodeDecodeError` there. -/
theorem config_load_fallback_counterexample :
    config_load StoreFile.undecodable = Except.error LoadError.unicodeDecodeError
    ∧ config_load StoreFile.undecodable ≠ Except.ok ([] : List Project) :=
  ⟨rfl, fun h => Except.noConfusion h⟩

/-- Claim C9, amended: a missing store file, an unreadable one (`IOError`),
and decodable text `json.load` cannot parse all yield the empty project list
without raising; but byte-undecodable content raises an uncaught
`UnicodeDecodeError` and valid-JSON non-dict content an uncaught
`AttributeError` — these two are exactly the load paths that escape. -/
theorem config_load_fallback_spec :
    (∀ s, config_load (StoreFile.unparseable s) = Except.ok [])
    ∧ config_load StoreFile.missing = Except.ok []
    ∧ config_load StoreFile.ioError = Except.ok []
    ∧ config_load StoreFile.undecodable = Except.error LoadError.unicodeDecodeError
    ∧ config_load StoreFile.parsedNonDict = Except.error LoadError.attributeError
    ∧ (∀ st, (∃ e, config_load st = Except.error e) ↔
        (st = StoreFile.undecodable ∨ st = StoreFile.parsedNonDict)) := by
  refine ⟨fun s => rfl, rfl, rfl, rfl, rfl, fun st => ?_⟩
  constructor
  · rintro ⟨e, he⟩
    cases st with
    | missing => cases he
    | ioError => cases he
    | undecodable => exact Or.inl rfl
    | unparseable r => cases he
    | parsedNonDict => exact Or.inr rfl
    | parsed o =>
      cases o with
      | none => cases he
      | some ps => cases he
  · rintro (rfl | rfl)
    · exact ⟨LoadError.unicodeDecodeError, rfl⟩
    · exact ⟨LoadError.attributeError, rfl⟩

/-- Claim C4: the full-sync pipeline runs its four steps strictly in the
fixed order, the invoked steps always form a prefix of that order, each step
runs exactly when every earlier step reported success, and the pipeline
reports success exactly when all four steps do. -/
theorem full_sync_pipeline_spec (e : FullSyncEnv) :
    (full_sync e).2 = (e.syncToResult && e.pushResult && e.pullResult && e.syncFromResult)
    ∧ (full_sync e).1 = fullSteps.take (full_sync e).1.length
    ∧ Step.syncToRemote ∈ (full_sync e).1
    ∧ (Step.gitPush ∈ (full_sync e).1 ↔ e.syncToResult = true)
    ∧ (Step.gitPull ∈ (full_sync e).1 ↔ (e.syncToResult = true ∧ e.pushResult = true))
    ∧ (Step.syncFromRemote ∈ (full_sync e).1 ↔
        (e.syncToResult = true ∧ e.pushResult = true ∧ e.pullResult = true)) := by
  obtain ⟨a, b, c, d⟩ := e
  cases a <;> cases b <;> cases c <;> cases d <;> decide

/-- Inserting a fresh key into the dialog's results dict appends it. -/
theorem dictInsert_of_not_mem {m : List (String × Choice)} {k : String} (v : Choice)
    (h : k ∉ m.map Prod.fst) : dictInsert m k v = m ++ [(k, v)] := by
  simp [dictInsert, h]

/-- The apply-to-all loop over conflicts with fresh, pairwise-distinct files
appends one entry per remaining conflict. -/
theorem foldl_dictInsert_append (ch : Choice) (cs : List Conflict) :
    ∀ (m : List (String × Choice)),
      (∀ c ∈ cs, c.file ∉ m.map Prod.fst) →
      (cs.map (fun c => c.file)).Nodup →
      cs.foldl (fun m cf => dictInsert m cf.file ch) m = m ++ cs.map (fun c => (c.file, ch)) := by
  induction cs with
  | nil => intro m _ _; simp
  | cons c rest ih =>
    intro m hdisj hnd
    simp only [List.map_cons, List.nodup_cons] at hnd
    have hdisj' : ∀ c' ∈ rest, c'.file ∉ (m ++ [(c.file, ch)]).map Prod.fst := by
      intro c' hc'
      simp only [List.map_append, List.mem_append, List.map_cons, List.map_nil,
        List.mem_singleton]
      rintro (h | h)
      · exact hdisj c' (List.mem_cons_of_mem _ hc') h
      · exact hnd.1 (h ▸ List.mem_map_of_mem (fun c => c.file) hc')
    simp only [List.foldl_cons]
    rw [dictInsert_of_not_mem ch (hdisj c (List.mem_cons_self c rest)),
      ih (m ++ [(c.file, ch)]) hdisj' hnd.2]
    simp

/-- Running the dialog through a prefix of individual decisions followed by a
decision with `apply to all remaining` set: an entry per decided conflict,
then the bulk choice for every remaining one. -/
theorem conflict_dialog_run_indiv_then_all (ck : Choice) (indiv : List Choice) :
    ∀ (cs : List Conflict) (acc : List (String × Choice)),
      indiv.length < cs.length →
      (cs.map (fun c => c.file)).Nodup →
      (∀ c ∈ cs, c.file ∉ acc.map Prod.fst) →
      conflict_dialog_run cs
          (indiv.map (fun d => UserAction.resolve d false) ++ [UserAction.resolve ck true]) acc
        = some ⟨acc ++ List.zipWith (fun c d => (c.file, d)) cs indiv
                ++ (cs.drop indiv.length).map (fun c => (c.file, ck)), false⟩ := by
  induction indiv with
  | nil =>
    intro cs acc hlen hnd hdisj
    cases cs with
    | nil => simp at hlen
    | cons c rest =>
      simp only [List.map_cons, List.nodup_cons] at hnd
      have hdisj' : ∀ c' ∈ rest, c'.file ∉ (acc ++ [(c.file, ck)]).map Prod.fst := by
        intro c' hc'
        simp only [List.map_append, List.mem_append, List.map_cons, List.map_nil,
          List.mem_singleton]
        rintro (h | h)
        · exact hdisj c' (List.mem_cons_of_mem _ hc') h
        · exact hnd.1 (h ▸ List.mem_map_of_mem (fun c => c.file) hc')
      simp only [List.map_nil, List.nil_append, conflict_dialog_run, if_true]
      rw [dictInsert_of_not_mem ck (hdisj c (List.mem_cons_self c rest)),
        foldl_dictInsert_append ck rest (acc ++ [(c.file, ck)]) hdisj' hnd.2]
      simp
  | cons d indiv' ih =>
    intro cs acc hlen hnd hdisj
    cases cs with
    | nil => simp at hlen
    | cons c rest =>
      simp only [List.map_cons, List.nodup_cons] at hnd
      have hdisj' : ∀ c' ∈ rest, c'.file ∉ (acc ++ [(c.file, d)]).map Prod.fst := by
        intro c' hc'
        simp only [List.map_append, List.mem_append, List.map_cons, List.map_nil,
          List.mem_singleton]
        rintro (h | h)
        · exact hdisj c' (List.mem_cons_of_mem _ hc') h
        · exact hnd.1 (h ▸ List.mem_map_of_mem (fun c => c.file) hc')
      have hlen' : indiv'.length < rest.length := by
        simp only [List.length_cons] at hlen
        omega
      have step :
          conflict_dialog_run (c :: rest)
              ((d :: indiv').map (fun d => UserAction.resolve d false)
                ++ [UserAction.resolve ck true]) acc
            = conflict_dialog_run rest
                (indiv'.map (fun d => UserAction.resolve d false) ++ [UserAction.resolve ck true])
                (dictInsert acc c.file d) := by
        simp [conflict_dialog_run]
      rw [step, dictInsert_of_not_mem d (hdisj c (List.mem_cons_self c rest)),
        ih rest (acc ++ [(c.file, d)]) hlen' hnd.2 hdisj']
      simp

/-- Claim C2: over `n` conflicts with (necessarily) distinct files, deciding
conflicts `0..k-1` individually and then choosing at conflict `k` with `apply
to all remaining` set yields a resolved dialog whose results have exactly `n`
entries: entry `j` is conflict `j`'s file paired with its individual choice
for `j < k` and with the bulk choice for `j ≥ k`. -/
theorem conflict_dialog_apply_all_spec (cs : List Conflict) (indiv : List Choice) (ck : Choice)
    (hnodup : (cs.map (fun c => c.file)).Nodup)
    (hlen : indiv.length < cs.length) :
    conflict_dialog_run cs
        (indiv.map (fun d => UserAction.resolve d false) ++ [UserAction.resolve ck true]) []
      = some ⟨List.zipWith (fun c d => (c.file, d)) cs indiv
              ++ (cs.drop indiv.length).map (fun c => (c.file, ck)), false⟩
    ∧ (List.zipWith (fun c d => (c.file, d)) cs indiv
        ++ (cs.drop indiv.length).map (fun c => (c.file, ck))).length = cs.length
    ∧ (∀ (j : Nat) (dj : Choice) (cj : Conflict), indiv[j]? = some dj → cs[j]? = some cj →
        (List.zipWith (fun c d => (c.file, d)) cs indiv
          ++ (cs.drop indiv.length).map (fun c => (c.file, ck)))[j]? = some (cj.file, dj))
    ∧ (∀ (j : Nat) (cj : Conflict), indiv.length ≤ j → cs[j]? = some cj →
        (List.zipWith (fun c d => (c.file, d)) cs indiv
          ++ (cs.drop indiv.length).map (fun c => (c.file, ck)))[j]? = some (cj.file, ck)) := by
  have hzl : (List.zipWith (fun c d => (c.file, d)) cs indiv).length = indiv.length := by
    rw [List.length_zipWith]
    omega
  refine ⟨?_, ?_, ?_, ?_⟩
  · have h := conflict_dialog_run_indiv_then_all ck indiv cs [] hlen hnodup (by simp)
    simpa using h
  · simp only [List.length_append, hzl, List.length_map, List.length_drop]
    omega
  · intro j dj cj hj hcj
    have hjlt : j < indiv.length := by
      by_contra hge
      rw [List.getElem?_eq_none (by omega)] at hj
      cases hj
    rw [List.getElem?_append_left (by rw [hzl]; exact hjlt)]
    exact List.getElem?_zipWith_eq_some.mpr ⟨cj, dj, hcj, hj, rfl⟩
  · intro j cj hle hcj
    rw [List.getElem?_append_right (by rw [hzl]; exact hle), hzl, List.getElem?_map,
      List.getElem?_drop]
    have harith : indiv.length + (j - indiv.length) = j := by omega
    rw [harith, hcj]
    rfl

/-- Concrete conflict list for the C2 witness. -/
def csC2 : List Conflict := [⟨"a", 1, 2⟩, ⟨"b", 1, 2⟩, ⟨"c", 1, 2⟩]

theorem conflict_dialog_apply_all_spec_witness :
    ((csC2.map (fun c => c.file)).Nodup ∧ [Choice.skip].length < csC2.length)
    ∧ conflict_dialog_run csC2
        ([Choice.skip].map (fun d => UserAction.resolve d false)
          ++ [UserAction.resolve Choice.useLocal true]) []
      = some ⟨[("a", Choice.skip), ("b", Choice.useLocal), ("c", Choice.useLocal)], false⟩ := by
  refine ⟨⟨by decide, by decide⟩, ?_⟩
  have h := (conflict_dialog_apply_all_spec csC2 [Choice.skip] Choice.useLocal
    (by decide) (by decide)).1
  rw [h]
  decide

/-- Cancelling at the conflict presented after any prefix of individual
decisions closes the dialog with `cancelled` set. -/
theorem conflict_dialog_run_cancel_mid (indiv : List Choice) :
    ∀ (cs : List Conflict) (acc : List (String × Choice)) (tail : List UserAction),
      indiv.length < cs.length →
      ∃ res, conflict_dialog_run cs
          (indiv.map (fun d => UserAction.resolve d false) ++ UserAction.cancel :: tail) acc
        = some ⟨res, true⟩ := by
  induction indiv with
  | nil =>
    intro cs acc tail hlen
    cases cs with
    | nil => simp at hlen
    | cons c rest => exact ⟨acc, by simp [conflict_dialog_run]⟩
  | cons d indiv' ih =>
    intro cs acc tail hlen
    cases cs with
    | nil => simp at hlen
    | cons c rest =>
      have hlen' : indiv'.length < rest.length := by
        simp only [List.length_cons] at hlen
        omega
      obtain ⟨res, hres⟩ := ih rest (dictInsert acc c.file d) tail hlen'
      exact ⟨res, by simp [conflict_dialog_run, hres]⟩

/-- Claim C5: cancelling the dialog from any presented conflict (after any
prefix of individual decisions) makes both sync operations abort with the
cancelled outcome: no resolution is consumed, no transfer is invoked, the
returned boolean is non-success, and the cancelled outcome is distinct from
transfer failure. -/
theorem cancel_aborts_sync_spec (e : SyncOpEnv) (indiv : List Choice) (tail : List UserAction)
    (hacts : e.acts = indiv.map (fun d => UserAction.resolve d false)
      ++ UserAction.cancel :: tail)
    (hlen : indiv.length < (detect_conflicts e.env).length) :
    sync_to_remote e true = some ⟨SyncOutcome.cancelled, none⟩
    ∧ sync_from_remote e true = some ⟨SyncOutcome.cancelled, none⟩
    ∧ (∃ st, conflict_dialog_run (detect_conflicts e.env) e.acts [] = some st
        ∧ st.cancelled = true)
    ∧ syncOutcomeToBool SyncOutcome.cancelled = false
    ∧ SyncOutcome.cancelled ≠ SyncOutcome.syncFailed := by
  obtain ⟨res, hres⟩ :=
    conflict_dialog_run_cancel_mid indiv (detect_conflicts e.env) [] tail hlen
  have hne : (detect_conflicts e.env).isEmpty = false := by
    cases hd : detect_conflicts e.env with
    | nil => rw [hd] at hlen; simp at hlen
    | cons _ _ => rfl
  refine ⟨?_, ?_, ⟨⟨res, true⟩, by rw [hacts]; exact hres, rfl⟩, rfl, by simp⟩
  · simp [sync_to_remote, hne, hacts, hres]
  · simp [sync_from_remote, hne, hacts, hres]

/-- Concrete environment for the C5 witness: one conflicting file, and the
user's first action is `Cancel All`. -/
def envC5 : SyncOpEnv where
  env :=
    { localList := (true, "a")
      remoteList := (true, "a")
      localMtimeMs := fun _ => some 1000
      remoteStat := fun _ => (true, "2") }
  acts := [UserAction.cancel]
  rsyncOk := true

theorem cancel_aborts_sync_spec_witness :
    (envC5.acts = ([] : List Choice).map (fun d => UserAction.resolve d false)
        ++ UserAction.cancel :: ([] : List UserAction)
      ∧ ([] : List Choice).length < (detect_conflicts envC5.env).length)
    ∧ sync_to_remote envC5 true = some ⟨SyncOutcome.cancelled, none⟩ := by
  refine ⟨⟨rfl, by decide⟩, ?_⟩
  exact (cancel_aborts_sync_spec envC5 [] [] rfl (by decide)).1

/-- Claim C3: a to-remote sync transfers exactly the authoritative files
whose decision is `local` or that carry no decision, a from-remote sync
symmetrically those whose decision is `remote` or that carry none; with
resolution `A ↦ remote, B ↦ skip` and authoritative list `A, B, C`, a
to-remote sync transfers exactly `C`. -/
theorem sync_exclusion_spec (results : List (String × Choice)) (auth : List String) :
    (∀ f, f ∈ filter_files auth (exclude_to_remote results) ↔
        (f ∈ auth ∧ ∀ ch, (f, ch) ∈ results → ch = Choice.useLocal))
    ∧ (∀ f, f ∈ filter_files auth (exclude_from_remote results) ↔
        (f ∈ auth ∧ ∀ ch, (f, ch) ∈ results → ch = Choice.useRemote))
    ∧ filter_files ["A", "B", "C"]
        (exclude_to_remote [("A", Choice.useRemote), ("B", Choice.skip)]) = ["C"] := by
  refine ⟨fun f => ?_, fun f => ?_, by decide⟩
  · constructor
    · intro hf
      obtain ⟨hfa, hfe⟩ := List.mem_filter.mp hf
      rw [decide_eq_true_eq] at hfe
      refine ⟨hfa, fun ch hmem => ?_⟩
      by_contra hne
      refine hfe ?_
      simp only [exclude_to_remote, List.mem_map]
      exact ⟨(f, ch), List.mem_filter.mpr ⟨hmem, by simpa [bne_iff_ne] using hne⟩, rfl⟩
    · rintro ⟨hfa, hdec⟩
      refine List.mem_filter.mpr ⟨hfa, ?_⟩
      rw [decide_eq_true_eq]
      intro hex
      simp only [exclude_to_remote, List.mem_map] at hex
      obtain ⟨⟨p1, p2⟩, hp, hpf⟩ := hex
      obtain ⟨hpr, hpne⟩ := List.mem_filter.mp hp
      rw [bne_iff_ne] at hpne
      cases hpf
      exact hpne (hdec p2 hpr)
  · constructor
    · intro hf
      obtain ⟨hfa, hfe⟩ := List.mem_filter.mp hf
      rw [decide_eq_true_eq] at hfe
      refine ⟨hfa, fun ch hmem => ?_⟩
      by_contra hne
      refine hfe ?_
      simp only [exclude_from_remote, List.mem_map]
      exact ⟨(f, ch), List.mem_filter.mpr ⟨hmem, by simpa [bne_iff_ne] using hne⟩, rfl⟩
    · rintro ⟨hfa, hdec⟩
      refine List.mem_filter.mpr ⟨hfa, ?_⟩
      rw [decide_eq_true_eq]
      intro hex
      simp only [exclude_from_remote, List.mem_map] at hex
      obtain ⟨⟨p1, p2⟩, hp, hpf⟩ := hex
      obtain ⟨hpr, hpne⟩ := List.mem_filter.mp hp
      rw [bne_iff_ne] at hpne
      cases hpf
      exact hpne (hdec p2 hpr)

/-- Claim C7: on a dirty tree with no commit message the push aborts with
nothing committed and nothing pushed and reports non-success; with a message,
a failing stage-and-commit aborts before the push; the push command runs
exactly when the tree is clean or the commit succeeded after a message; and
the run reports success exactly when the push ran and succeeded. -/
theorem git_push_spec (e : GitPushEnv) :
    ((get_git_status e).1 = true → e.commitMsg = none →
        git_push e = ⟨PushResult.pushCancelled, false, false⟩
        ∧ pushResultToBool (git_push e).result = false)
    ∧ ((get_git_status e).1 = true → e.commitMsg ≠ none → e.commitOk = false →
        git_push e = ⟨PushResult.commitFailed, true, false⟩
        ∧ pushResultToBool (git_push e).result = false)
    ∧ ((git_push e).pushInvoked = true ↔
        ((get_git_status e).1 = false ∨ (e.commitMsg ≠ none ∧ e.commitOk = true)))
    ∧ ((git_push e).result = PushResult.pushed ↔
        ((git_push e).pushInvoked = true ∧ e.pushOk = true)) := by
  rcases hm : e.commitMsg with _ | m <;>
    cases hs : (get_git_status e).1 <;>
      cases hco : e.commitOk <;>
        cases hp : e.pushOk <;>
          simp [git_push, hs, hm, hco, hp, pushResultToBool]

/-- Claim C8: in either direction, when nothing remains of the authoritative
list after removing the excluded files, the sync succeeds immediately with
the distinct nothing-to-do outcome and the transfer tool is never invoked. -/
theorem sync_nothing_to_do_spec (e : SyncOpEnv) (ex : List String) :
    (filter_files (localFiles e.env) ex = [] →
        sync_to_remote_after e ex = ⟨SyncOutcome.nothingToDo, none⟩)
    ∧ (filter_files (remoteFiles e.env) ex = [] →
        sync_from_remote_after e ex = ⟨SyncOutcome.nothingToDo, none⟩)
    ∧ syncOutcomeToBool SyncOutcome.nothingToDo = true
    ∧ (∀ n, SyncOutcome.nothingToDo ≠ SyncOutcome.synced n)
    ∧ SyncOutcome.nothingToDo ≠ SyncOutcome.syncFailed
    ∧ SyncOutcome.nothingToDo ≠ SyncOutcome.cancelled := by
  refine ⟨fun h => ?_, fun h => ?_, rfl, fun n => by simp, by simp, by simp⟩
  · simp [sync_to_remote_after, h]
  · simp [sync_from_remote_after, h]

/-- Claim C10: when the remote listing command fails or produces empty
output, the file lister returns the empty list, and a from-remote sync (its
authoritative side being the remote listing) reports the nothing-to-do
success outcome instead of surfacing the tool failure. -/
theorem failed_listing_nothing_to_do_spec (e : SyncOpEnv)
    (h : e.env.remoteList.1 = false ∨ pyStrip e.env.remoteList.2 = "") :
    remoteFiles e.env = []
    ∧ sync_from_remote e true = some ⟨SyncOutcome.nothingToDo, none⟩
    ∧ sync_from_remote e false = some ⟨SyncOutcome.nothingToDo, none⟩
    ∧ syncOutcomeToBool SyncOutcome.nothingToDo = true := by
  have hrf : remoteFiles e.env = [] := by
    rcases h with h | h <;> simp [remoteFiles, get_gitignored_files, h]
  have hdet : detect_conflicts e.env = [] := by
    simp [detect_conflicts, hrf]
  refine ⟨hrf, ?_, ?_, rfl⟩
  · simp [sync_from_remote, hdet, sync_from_remote_after, filter_files, hrf]
  · simp [sync_from_remote, sync_from_remote_after, filter_files, hrf]

/-- Concrete environment for the C10 witness: the remote listing command
fails. -/
def envC10 : SyncOpEnv where
  env :=
    { localList := (true, "a")
      remoteList := (false, "fatal: not a git repository")
      localMtimeMs := fun _ => some 1000
      remoteStat := fun _ => (true, "2") }
  acts := []
  rsyncOk := true

theorem failed_listing_nothing_to_do_spec_witness :
    envC10.env.remoteList.1 = false
    ∧ sync_from_remote envC10 true = some ⟨SyncOutcome.nothingToDo, none⟩ :=
  ⟨rfl, (failed_listing_nothing_to_do_spec envC10 (Or.inl rfl)).2.1⟩
